import Mathlib

/-!
Verification of the 504 server (`src/main.c`).

A shallow embedding of the bounded request queue, the worker pool, the
configuration loader and the connection handler of `src/main.c`, followed by
theorems about them.

Conventions of the embedding:

* C `int` fields are `Int`.  Every arithmetic result on the queue fields is
  shown to stay between `0` and `size`, so no 32-bit wrap-around is modelled.
* A call that sits in `pthread_cond_wait` returns `none`: the wait loop writes
  no field of the queue, and the caller re-evaluates the loop condition on the
  next wake-up, which is a new call on the then-current state.
* Each completed `enqueue` / `dequeue` is one atomic step, because the whole
  body runs under `q->lock`.
* `malloc` is assumed to succeed; the bytes it returns are arbitrary and are
  passed in as `mem`.
* `main` installs handlers for SIGHUP and SIGTERM only, so SIGPIPE keeps its
  default action: a `send` on a connection that the peer has reset ends the
  process inside the call.  Standard output and standard error are taken to be
  a terminal or a file, so `printf` and `perror` return.
-/

set_option maxRecDepth 100000

namespace Server504

/-! ## The request queue -/

/-- The C struct `request_t`: one accepted connection. -/
structure request_t where
  client_socket : Int
deriving DecidableEq, Repr, Inhabited

/-- The C struct `request_queue_t` without its lock and condition variables:
the ring buffer `queue` and the four `int` fields. -/
structure request_queue_t where
  queue : List request_t
  front : Int
  rear : Int
  count : Int
  size : Int
deriving DecidableEq, Repr

/-- The function `init_queue`: a buffer of `size` slots holding whatever `malloc`
returned (`mem`), and `front = rear = count = 0`. -/
def init_queue (mem : Nat → request_t) (size : Int) : request_queue_t :=
  { queue := (List.range size.toNat).map mem
    front := 0
    rear := 0
    count := 0
    size := size }

/-- The function `enqueue`.  `none`: the loop `while (q->count == q->size)` holds
and the caller waits on `not_full`.  Otherwise the request is stored at `rear`,
`rear` advances modulo `size` (C remainder, `Int.tmod`) and `count` grows by one. -/
def enqueue (q : request_queue_t) (request : request_t) : Option request_queue_t :=
  if q.count = q.size then none
  else some
    { q with
      queue := q.queue.set q.rear.toNat request
      rear := (q.rear + 1).tmod q.size
      count := q.count + 1 }

/-- The function `dequeue`.  `none`: the loop `while (q->count == 0)` holds and the
caller waits on `not_empty`.  Otherwise the slot at `front` is read out, `front`
advances modulo `size` and `count` shrinks by one.  The loop tests nothing but
`count`. -/
def dequeue (q : request_queue_t) : Option (request_queue_t × request_t) :=
  if q.count = 0 then none
  else some
    ({ q with
       front := (q.front + 1).tmod q.size
       count := q.count - 1 },
     q.queue.getD q.front.toNat default)

/-- One attempted queue operation of some thread. -/
inductive queue_op where
  | enq (request : request_t)
  | deq
deriving DecidableEq, Repr

/-- A queue together with the record of the operations completed on it:
the requests passed to completed `enqueue` calls and the requests returned by
completed `dequeue` calls, both in order of completion. -/
structure history where
  q : request_queue_t
  enqueued : List request_t
  dequeued : List request_t
deriving DecidableEq, Repr

/-- One scheduling step: the operation runs under the lock.  When its wait loop
holds, nothing is written and nothing is recorded. -/
def history.step (h : history) : queue_op → history
  | .enq r =>
    match enqueue h.q r with
    | some q1 => { h with q := q1, enqueued := h.enqueued ++ [r] }
    | none => h
  | .deq =>
    match dequeue h.q with
    | some (q1, r) => { h with q := q1, dequeued := h.dequeued ++ [r] }
    | none => h

/-- A schedule of attempted operations, run from left to right. -/
def history.run (h : history) (ops : List queue_op) : history :=
  ops.foldl history.step h

/-- The state right after `init_queue(q, C)`: nothing enqueued or dequeued yet. -/
def history.start (mem : Nat → request_t) (C : Int) : history :=
  { q := init_queue mem C, enqueued := [], dequeued := [] }

/-- The `count` requests held in the ring: slots `front`, `front + 1`, ...
taken modulo `size`. -/
def stored (q : request_queue_t) : List request_t :=
  (List.range q.count.toNat).map
    (fun (j : Nat) => q.queue.getD ((q.front + (j : Int)) % q.size).toNat default)

/-- Representation invariant of the ring buffer. -/
structure queue_inv (q : request_queue_t) : Prop where
  size_pos : 0 < q.size
  len : (q.queue.length : Int) = q.size
  front_lo : 0 ≤ q.front
  front_hi : q.front < q.size
  rear_lo : 0 ≤ q.rear
  rear_hi : q.rear < q.size
  count_lo : 0 ≤ q.count
  count_hi : q.count ≤ q.size
  ring : q.front + q.count = q.rear ∨ q.front + q.count = q.rear + q.size

/-! ## C strings -/

/-- The terminating byte of a C string. -/
def NUL : Char := Char.ofNat 0

/-- The C string held in a buffer: the bytes before the first `NUL`. -/
def c_str (s : List Char) : List Char :=
  s.takeWhile (fun c => c != NUL)

/-- The test `strncmp(s, t, n) == 0` of libc: the strings agree on their first
`n` bytes, or on all bytes up to a common terminator met earlier.  The end of
a list is the terminator of the string it holds. -/
def strncmp_zero : List Char → List Char → Nat → Bool
  | _, _, 0 => true
  | s, t, n + 1 =>
    if s.headD NUL != t.headD NUL then false
    else if s.headD NUL == NUL then true
    else strncmp_zero s.tail t.tail n

/-! ## The configuration loader -/

/-- The three global settings `PORT`, `THREAD_POOL_SIZE` and `QUEUE_SIZE`. -/
structure config where
  PORT : Int
  THREAD_POOL_SIZE : Int
  QUEUE_SIZE : Int
deriving DecidableEq, Repr

/-- The status `EXIT_FAILURE` passed to `exit`. -/
def EXIT_FAILURE : Int := 1

/-- The bytes one `fgets` call stores when `room` bytes fit before the
terminator: it stops after a newline, at the end of the stream, or when the
room is used up.  Returns the bytes stored and the rest of the stream. -/
def fgets_chars : Nat → List Char → List Char × List Char
  | 0, s => ([], s)
  | _ + 1, [] => ([], [])
  | room + 1, c :: s =>
    if c = '\n' then ([c], s)
    else ((c :: (fgets_chars room s).1), (fgets_chars room s).2)

/-- The call `fgets(line, size, file)`: `none` (NULL) at the end of the stream,
otherwise at most `size - 1` bytes. -/
def fgets (size : Nat) (stream : List Char) : Option (List Char × List Char) :=
  if stream = [] then none else some (fgets_chars (size - 1) stream)

/-- The body of the `while (fgets(...))` loop of `load_config`: the three
`strncmp` tests in order, `atoi` applied to the string that starts right
after the matched prefix.  `atoi` is libc's and is a parameter here. -/
def config_line (atoi : List Char → Int) (line : List Char) (cfg : config) : config :=
  if strncmp_zero line "PORT=".toList 5 then
    { cfg with PORT := atoi (c_str (line.drop 5)) }
  else if strncmp_zero line "THREAD_POOL_SIZE=".toList 17 then
    { cfg with THREAD_POOL_SIZE := atoi (c_str (line.drop 17)) }
  else if strncmp_zero line "QUEUE_SIZE=".toList 11 then
    { cfg with QUEUE_SIZE := atoi (c_str (line.drop 11)) }
  else cfg

/-- The loop `while (fgets(line, sizeof(line), file))` with `char line[256]`;
`fuel` bounds the number of iterations. -/
def read_config (atoi : List Char → Int) : Nat → List Char → config → config
  | 0, _, cfg => cfg
  | fuel + 1, stream, cfg =>
    match fgets 256 stream with
    | none => cfg
    | some (line, rest) => read_config atoi fuel rest (config_line atoi line cfg)

/-- The function `load_config`.  `file = none`: `fopen` fails and the process
exits with `EXIT_FAILURE`.  Otherwise the file is read to its end; every
`fgets` call on a non-empty stream consumes a byte, so `length + 1` iterations
reach the end. -/
def load_config (atoi : List Char → Int) (file : Option (List Char)) (cfg : config) :
    Except Int config :=
  match file with
  | none => .error EXIT_FAILURE
  | some stream => .ok (read_config atoi (stream.length + 1) stream cfg)

/-- The function `atoi` of libc as glibc computes it, `(int) strtol(s, NULL, 10)`:
the white space of `isspace` is skipped (blank, tab, line feed, vertical tab,
form feed, carriage return), then an optional sign and the decimal digits are
read, the value is clamped to the range of `long` and cut to 32 bits. -/
def atoi_digits (s : List Char) : Int :=
  let t := s.dropWhile (fun c =>
    c = ' ' ∨ c = '\t' ∨ c = '\n' ∨ c = Char.ofNat 11 ∨ c = Char.ofNat 12 ∨ c = '\r')
  let value := fun (d : List Char) =>
    ((d.takeWhile Char.isDigit).foldl (fun acc c => 10 * acc + (c.toNat - 48)) 0 : Nat)
  let signed : Int :=
    match t with
    | '-' :: d => - (value d : Int)
    | '+' :: d => (value d : Int)
    | d => (value d : Int)
  let long : Int := max (-9223372036854775808) (min 9223372036854775807 signed)
  (long + 2147483648) % 4294967296 - 2147483648

/-- A line starts with the key prefix `pfx`. -/
def starts_with (pfx : String) (line : List Char) : Bool :=
  pfx.toList.isPrefixOf line

/-- A line carries one of the three recognized keys. -/
def recognized (line : List Char) : Bool :=
  starts_with "PORT=" line || starts_with "THREAD_POOL_SIZE=" line ||
    starts_with "QUEUE_SIZE=" line

/-- The value a key ends up with after a list of lines: `atoi` of the text after
the prefix on the last line that starts with it, the old value when there is
no such line. -/
def last_setting (atoi : List Char → Int) (pfx : String) (lines : List (List Char))
    (old : Int) : Int :=
  match (lines.filter (starts_with pfx)).getLast? with
  | none => old
  | some line => atoi (c_str (line.drop pfx.length))

/-- The text of a file made of newline-terminated lines `bodies` followed by a
last line `tail` that has no newline (empty when the file ends in a newline). -/
def file_text (bodies : List (List Char)) (tail : List Char) : List Char :=
  (bodies.map (fun b => b ++ ['\n'])).flatten ++ tail

/-- The lines of `file_text bodies tail`, each with its newline. -/
def file_lines (bodies : List (List Char)) (tail : List Char) : List (List Char) :=
  bodies.map (fun b => b ++ ['\n']) ++ (if tail = [] then [] else [tail])

/-! ## The connection handler -/

/-- What `handle_client` does to the outside world, in program order.  The
event `killed` is the end of the process by SIGPIPE; nothing follows it. -/
inductive effect where
  | recv (fd : Int) (max_len : Nat)
  | perror (msg : String)
  | printf (text : List Char)
  | send (fd : Int) (data : List Char)
  | close (fd : Int)
  | killed
deriving DecidableEq, Repr

/-- How the call `send(client_socket, response, strlen(response), 0)` ends.  It
returns a result, which `handle_client` does not read; or the peer has reset
the connection and the call raises SIGPIPE, which ends the process inside the
call (flags are `0` and no handler for SIGPIPE is installed). -/
inductive send_result where
  | returned (n : Int)
  | sigpipe
deriving DecidableEq, Repr

/-- What follows the `send` call in `handle_client`: `close(client_socket)` when
the call returns, the end of the process when it raises SIGPIPE. -/
def after_send (client_socket : Int) : send_result → List effect
  | .returned _ => [.close client_socket]
  | .sigpipe => [.killed]

/-- The constant `BUFFER_SIZE`. -/
def BUFFER_SIZE : Nat := 1024

/-- The response literal of the `CONNECT` branch. -/
def response_504 : List Char :=
  ("HTTP/1.1 504 Gateway Timeout\r\n" ++
   "Content-Type: text/plain\r\n" ++
   "Content-Length: 19\r\n" ++
   "\r\n" ++
   "Gateway Timeout").toList

/-- The response literal of the other branch. -/
def response_200 : List Char :=
  ("HTTP/1.1 200 OK\r\n" ++
   "Content-Type: text/plain\r\n" ++
   "Content-Length: 13\r\n" ++
   "\r\n" ++
   "Hello, world!").toList

/-- The function `handle_client`.  `bytes_received` is what `recv` returned,
`buffer` is the content of the local buffer after that call, and `sent` is how
the `send` call ends if one is made. -/
def handle_client (client_socket : Int) (bytes_received : Int) (buffer : List Char)
    (sent : send_result) : List effect :=
  if bytes_received < 0 then
    [.recv client_socket (BUFFER_SIZE - 1), .perror "recv", .close client_socket]
  else
    let buffer := buffer.set bytes_received.toNat NUL
    if strncmp_zero buffer "CONNECT".toList 7 then
      [.recv client_socket (BUFFER_SIZE - 1), .printf (c_str buffer),
       .send client_socket response_504] ++ after_send client_socket sent
    else
      [.recv client_socket (BUFFER_SIZE - 1), .printf (c_str buffer),
       .send client_socket response_200] ++ after_send client_socket sent

/-- The text after the first occurrence of `pat`, if there is one. -/
def after_first (pat : List Char) : List Char → Option (List Char)
  | [] => if pat = [] then some [] else none
  | c :: s =>
    if pat.isPrefixOf (c :: s) then some ((c :: s).drop pat.length)
    else after_first pat s

/-- The number a response declares in its `Content-Length` header. -/
def declared_length (response : List Char) : Option Nat :=
  (after_first "Content-Length: ".toList response).map fun rest =>
    (rest.takeWhile Char.isDigit).foldl (fun acc c => 10 * acc + (c.toNat - 48)) 0

/-- The body of a response: what follows the blank line. -/
def body (response : List Char) : Option (List Char) :=
  after_first "\r\n\r\n".toList response

/-! ## Workers, the pool and the accept loop -/

/-- Where a worker thread is in `worker`: about to test `!terminate_server`,
inside `dequeue` (at its wait loop), or returned from `worker`. -/
inductive worker_pc where
  | loop_top
  | in_dequeue
  | returned
deriving DecidableEq, Repr

/-- The C struct `thread_pool_t`; a thread is represented by its position in
`worker`. -/
structure thread_pool_t where
  threads : List worker_pc
  queue : request_queue_t
  thread_pool_size : Int
deriving DecidableEq, Repr

/-- The globals of `main.c` and the pool local to `main`. -/
structure server where
  cfg : config
  reload_config : Int
  terminate_server : Int
  pool : thread_pool_t
deriving DecidableEq, Repr

/-- One move of a worker thread.  At the loop top it tests `!terminate_server`
and either returns or calls `dequeue`.  Inside `dequeue` (on entry and after
every wake-up) it evaluates `while (q->count == 0)`: it keeps waiting, or takes
a request and runs `handle_client` on it (third component) before going back to
the loop top.  `dequeue` does not read `terminate_server`. -/
def worker_step (terminate_server : Int) (q : request_queue_t) :
    worker_pc → request_queue_t × worker_pc × Option request_t
  | .loop_top =>
    if terminate_server ≠ 0 then (q, .returned, none) else (q, .in_dequeue, none)
  | .in_dequeue =>
    match dequeue q with
    | none => (q, .in_dequeue, none)
    | some (q1, r) => (q1, .loop_top, some r)
  | .returned => (q, .returned, none)

/-- The worker at position `i` makes one move. -/
def pool_step (terminate_server : Int) (p : thread_pool_t) (i : Nat) : thread_pool_t :=
  match p.threads[i]? with
  | none => p
  | some pc =>
    { p with
      threads := p.threads.set i (worker_step terminate_server p.queue pc).2.1
      queue := (worker_step terminate_server p.queue pc).1 }

/-- The workers move in the order given by a schedule. -/
def pool_run (terminate_server : Int) (p : thread_pool_t) (schedule : List Nat) :
    thread_pool_t :=
  schedule.foldl (pool_step terminate_server) p

/-- The function `init_pool`: it fills `*pool` with a fresh queue of `QUEUE_SIZE`
slots (the global, passed in) and `pool_size` threads, each starting `worker`
at its loop top. -/
def init_pool (mem : Nat → request_t) (QUEUE_SIZE : Int) (pool_size : Int) : thread_pool_t :=
  { threads := List.replicate pool_size.toNat .loop_top
    queue := init_queue mem QUEUE_SIZE
    thread_pool_size := pool_size }

/-- The function `destroy_pool`: it sets `terminate_server = 1`, broadcasts
`not_empty`, and joins every thread.  While `main` sits in `pthread_join` only
the workers move, in the order `schedule`; the joins are through when every
thread has returned (`some`), and not yet otherwise (`none`). -/
def destroy_pool (schedule : List Nat) (s : server) : Option server :=
  let p := pool_run 1 s.pool schedule
  if p.threads.all (fun pc => pc = .returned) then
    some { s with terminate_server := 1, pool := p }
  else none

/-- How a piece of `main` ends: it goes on with a new state, the process
exits with a status, or the thread is stuck in a blocking call. -/
inductive outcome where
  | ok (s : server)
  | exit (status : Int)
  | blocked
deriving DecidableEq, Repr

/-- The condition `!terminate_server` of the accept loop (the same condition
guards the loop of `worker`). -/
def accept_loop_cond (s : server) : Bool :=
  s.terminate_server = 0

/-- The branch `if (reload_config) { ... }` of the accept loop:
`reload_config = 0; load_config(...); destroy_pool(&pool);
init_pool(&pool, THREAD_POOL_SIZE)`. -/
def reload_branch (atoi : List Char → Int) (mem : Nat → request_t)
    (file : Option (List Char)) (schedule : List Nat) (s : server) : outcome :=
  match load_config atoi file s.cfg with
  | .error status => .exit status
  | .ok cfg =>
    match destroy_pool schedule { s with reload_config := 0, cfg := cfg } with
    | none => .blocked
    | some s1 =>
      .ok { s1 with pool := init_pool mem s1.cfg.QUEUE_SIZE s1.cfg.THREAD_POOL_SIZE }

/-- The start of `main` up to the creation of the pool, with the socket calls
assumed to succeed: the globals are zero, `load_config` runs, `init_pool`
fills the local `pool`. -/
def startup (atoi : List Char → Int) (mem : Nat → request_t)
    (file : Option (List Char)) : outcome :=
  match load_config atoi file ⟨0, 0, 0⟩ with
  | .error status => .exit status
  | .ok cfg =>
    .ok
      { cfg := cfg
        reload_config := 0
        terminate_server := 0
        pool := init_pool mem cfg.QUEUE_SIZE cfg.THREAD_POOL_SIZE }

/-! ### Lemmas on the ring arithmetic -/

theorem tmod_succ_wrap (i n : Int) (h0 : 0 ≤ i) (h1 : i < n) :
    (i + 1).tmod n = if i + 1 = n then 0 else i + 1 := by
  rw [Int.tmod_eq_emod (by omega) (by omega)]
  split
  · next h => rw [h, Int.emod_self]
  · next h => exact Int.emod_eq_of_lt (by omega) (by omega)

theorem emod_wrap (x n : Int) (h0 : 0 ≤ x) (h1 : x < 2 * n) :
    x % n = if x < n then x else x - n := by
  split
  · next h => exact Int.emod_eq_of_lt h0 h
  · next h =>
    have : x = (x - n) + n := by ring
    rw [this, Int.add_emod_self, Int.emod_eq_of_lt (by omega) (by omega)]
    ring

theorem init_queue_inv (mem : Nat → request_t) (C : Int) (hC : 1 ≤ C) :
    queue_inv (init_queue mem C) := by
  constructor <;> simp [init_queue] <;> omega

theorem enqueue_inv {q q1 : request_queue_t} {r : request_t}
    (hq : queue_inv q) (h : enqueue q r = some q1) :
    queue_inv q1 ∧ q1.size = q.size ∧ q1.count = q.count + 1 ∧ q1.count ≤ q.size := by
  obtain ⟨h1, h2, h3, h4, h5, h6, h7, h8, h9⟩ := hq
  unfold enqueue at h
  split at h
  · simp at h
  · next hne =>
    simp only [Option.some.injEq] at h
    subst h
    have hw := tmod_succ_wrap q.rear q.size h5 h6
    refine ⟨?_, rfl, rfl, ?_⟩
    · constructor <;> simp only [List.length_set, hw] <;> (try split_ifs) <;> omega
    · simp only; omega

theorem dequeue_inv {q q1 : request_queue_t} {r : request_t}
    (hq : queue_inv q) (h : dequeue q = some (q1, r)) :
    queue_inv q1 ∧ q1.size = q.size ∧ q1.count = q.count - 1 ∧ 0 ≤ q1.count := by
  obtain ⟨h1, h2, h3, h4, h5, h6, h7, h8, h9⟩ := hq
  unfold dequeue at h
  split at h
  · simp at h
  · next hne =>
    simp only [Option.some.injEq, Prod.mk.injEq] at h
    obtain ⟨h, -⟩ := h
    subst h
    have hw := tmod_succ_wrap q.front q.size h3 h4
    refine ⟨?_, rfl, rfl, ?_⟩
    · constructor <;> simp only [hw] <;> (try split_ifs) <;> omega
    · simp only; omega

theorem step_inv {h : history} (hq : queue_inv h.q) (op : queue_op) :
    queue_inv (h.step op).q ∧ (h.step op).q.size = h.q.size := by
  cases op with
  | enq r =>
    simp only [history.step]
    cases he : enqueue h.q r with
    | none => exact ⟨hq, rfl⟩
    | some q1 => exact ⟨(enqueue_inv hq he).1, (enqueue_inv hq he).2.1⟩
  | deq =>
    simp only [history.step]
    cases he : dequeue h.q with
    | none => exact ⟨hq, rfl⟩
    | some p =>
      obtain ⟨q1, r⟩ := p
      exact ⟨(dequeue_inv hq he).1, (dequeue_inv hq he).2.1⟩

theorem run_inv (ops : List queue_op) : ∀ {h : history}, queue_inv h.q →
    queue_inv (h.run ops).q ∧ (h.run ops).q.size = h.q.size := by
  induction ops with
  | nil => intro h hq; exact ⟨hq, rfl⟩
  | cons op ops ih =>
    intro h hq
    have hs := step_inv hq op
    have := ih hs.1
    simp only [history.run, List.foldl_cons] at this ⊢
    exact ⟨this.1, this.2.trans hs.2⟩


theorem getD_set_toNat (b : List request_t) (i j : Int) (x : request_t)
    (hi : 0 ≤ i) (hj : 0 ≤ j) :
    (b.set i.toNat x).getD j.toNat default =
      if i = j ∧ i < b.length then x else b.getD j.toNat default := by
  simp only [List.getD_eq_getElem?_getD, List.getElem?_set]
  by_cases h : i = j
  · subst h
    by_cases h2 : i < b.length
    · have : i.toNat < b.length := by omega
      simp [h2, this]
    · have : b.length ≤ i.toNat := by omega
      have h3 : ¬ i.toNat < b.length := by omega
      simp [h2, h3, List.getElem?_eq_none this]
  · have : i.toNat ≠ j.toNat := by omega
    simp [h, this]

theorem enqueue_stored {q q1 : request_queue_t} {r : request_t}
    (hq : queue_inv q) (h : enqueue q r = some q1) :
    stored q1 = stored q ++ [r] := by
  obtain ⟨h1, h2, h3, h4, h5, h6, h7, h8, h9⟩ := hq
  unfold enqueue at h
  split at h
  · simp at h
  · next hne =>
    simp only [Option.some.injEq] at h
    subst h
    have hc : (q.count + 1).toNat = q.count.toNat + 1 := by omega
    simp only [stored, hc, List.range_succ, List.map_append, List.map_cons, List.map_nil]
    congr 1
    · apply List.map_congr_left
      intro j hj
      rw [List.mem_range] at hj
      have hw := emod_wrap (q.front + (j : Int)) q.size (by omega) (by omega)
      rw [getD_set_toNat _ _ _ _ h5 (by rw [hw]; split_ifs <;> omega)]
      rw [if_neg]
      rw [hw]
      split_ifs <;> omega
    · have hw := emod_wrap (q.front + (q.count.toNat : Int)) q.size (by omega) (by omega)
      rw [getD_set_toNat _ _ _ _ h5 (by rw [hw]; split_ifs <;> omega)]
      rw [if_pos]
      rw [hw]
      split_ifs <;> omega

theorem dequeue_stored {q q1 : request_queue_t} {r : request_t}
    (hq : queue_inv q) (h : dequeue q = some (q1, r)) :
    stored q = r :: stored q1 := by
  obtain ⟨h1, h2, h3, h4, h5, h6, h7, h8, h9⟩ := hq
  unfold dequeue at h
  split at h
  · simp at h
  · next hne =>
    simp only [Option.some.injEq, Prod.mk.injEq] at h
    obtain ⟨h, hr⟩ := h
    subst h
    subst hr
    have hc : q.count.toNat = (q.count - 1).toNat + 1 := by omega
    have hw := tmod_succ_wrap q.front q.size h3 h4
    simp only [stored]
    rw [hc, List.range_succ_eq_map, List.map_cons, List.map_map]
    congr 1
    · have : (q.front + ((0 : Nat) : Int)) % q.size = q.front := by
        simp only [Nat.cast_zero, add_zero]
        exact Int.emod_eq_of_lt h3 h4
      rw [this]
    · apply List.map_congr_left
      intro j hj
      rw [List.mem_range] at hj
      simp only [Function.comp, Nat.succ_eq_add_one, Nat.cast_add, Nat.cast_one, hw]
      have e1 := emod_wrap (q.front + ((j : Int) + 1)) q.size (by omega) (by omega)
      have e2 := emod_wrap ((if q.front + 1 = q.size then 0 else q.front + 1) + (j : Int))
        q.size (by split_ifs <;> omega) (by split_ifs <;> omega)
      rw [e1, e2]
      congr 2
      split_ifs <;> omega

/-- Every reachable history splits the enqueued requests into the dequeued
ones followed by the ones still stored. -/
theorem run_split (ops : List queue_op) : ∀ {h : history}, queue_inv h.q →
    h.enqueued = h.dequeued ++ stored h.q →
    (h.run ops).enqueued = (h.run ops).dequeued ++ stored (h.run ops).q := by
  induction ops with
  | nil => intro h _ hs; exact hs
  | cons op ops ih =>
    intro h hq hs
    have hi := (step_inv hq op).1
    have key : (h.step op).enqueued = (h.step op).dequeued ++ stored (h.step op).q := by
      cases op with
      | enq r =>
        simp only [history.step]
        cases he : enqueue h.q r with
        | none => exact hs
        | some q1 =>
          simp only [enqueue_stored hq he, hs, List.append_assoc]
      | deq =>
        simp only [history.step]
        cases he : dequeue h.q with
        | none => exact hs
        | some p =>
          obtain ⟨q1, r⟩ := p
          simp only [hs, dequeue_stored hq he, List.append_assoc, List.singleton_append]
    have := ih hi key
    simpa only [history.run, List.foldl_cons] using this

theorem enqueue_of_ne (q : request_queue_t) (r : request_t) (h : q.count ≠ q.size) :
    enqueue q r = some
      { q with
        queue := q.queue.set q.rear.toNat r
        rear := (q.rear + 1).tmod q.size
        count := q.count + 1 } := by
  simp [enqueue, h]

theorem dequeue_of_ne (q : request_queue_t) (h : q.count ≠ 0) :
    dequeue q = some
      ({ q with
         front := (q.front + 1).tmod q.size
         count := q.count - 1 },
       q.queue.getD q.front.toNat default) := by
  simp [dequeue, h]

theorem start_inv (mem : Nat → request_t) (C : Int) (hC : 1 ≤ C) :
    queue_inv (history.start mem C).q :=
  init_queue_inv mem C hC

theorem start_split (mem : Nat → request_t) (C : Int) :
    (history.start mem C).enqueued =
      (history.start mem C).dequeued ++ stored (history.start mem C).q := by
  simp [history.start, stored, init_queue]


/-! ## The request queue: capacity, order, conservation, backpressure -/

/-- Claim C1 (capacity invariant).  For a queue set up by `init_queue` with
capacity `C ≥ 1` and any schedule of enqueue and dequeue attempts, after every
step of the schedule `0 ≤ count ≤ C` holds (and `size` is still `C`). -/
theorem C1_capacity_invariant (mem : Nat → request_t) (C : Int) (ops : List queue_op)
    (k : Nat) (hC : 1 ≤ C) :
    0 ≤ ((history.start mem C).run (ops.take k)).q.count ∧
    ((history.start mem C).run (ops.take k)).q.count ≤ C ∧
    ((history.start mem C).run (ops.take k)).q.size = C := by
  have h := @run_inv (ops.take k) (history.start mem C) (start_inv mem C hC)
  have hs : ((history.start mem C).run (ops.take k)).q.size = C := h.2
  exact ⟨h.1.count_lo, le_of_le_of_eq h.1.count_hi hs, hs⟩

theorem C1_capacity_invariant_witness :
    (1 : Int) ≤ 2 ∧
    0 ≤ ((history.start (fun _ => ⟨0⟩) 2).run
        ([.enq ⟨5⟩, .enq ⟨6⟩, .enq ⟨7⟩, .deq, .deq, .deq].take 4)).q.count ∧
    ((history.start (fun _ => ⟨0⟩) 2).run
        ([.enq ⟨5⟩, .enq ⟨6⟩, .enq ⟨7⟩, .deq, .deq, .deq].take 4)).q.count ≤ 2 ∧
    ((history.start (fun _ => ⟨0⟩) 2).run
        ([.enq ⟨5⟩, .enq ⟨6⟩, .enq ⟨7⟩, .deq, .deq, .deq].take 4)).q.size = 2 :=
  ⟨by decide, C1_capacity_invariant (fun _ => ⟨0⟩) 2
    [.enq ⟨5⟩, .enq ⟨6⟩, .enq ⟨7⟩, .deq, .deq, .deq] 4 (by decide)⟩

/-- Claim C2 (FIFO order).  For a queue of capacity `C ≥ 1` that starts empty and
any schedule of attempts, the requests returned by the completed dequeues
are, in order, a prefix of the requests passed to the completed enqueues. -/
theorem C2_fifo_order (mem : Nat → request_t) (C : Int) (ops : List queue_op)
    (hC : 1 ≤ C) :
    ((history.start mem C).run ops).dequeued <+: ((history.start mem C).run ops).enqueued := by
  have h := @run_split ops (history.start mem C) (start_inv mem C hC)
    (start_split mem C)
  exact ⟨_, h.symm⟩

theorem C2_fifo_order_witness :
    (1 : Int) ≤ 2 ∧
    ((history.start (fun _ => ⟨0⟩) 2).run
        [.enq ⟨5⟩, .enq ⟨6⟩, .deq, .enq ⟨7⟩, .deq]).dequeued <+:
      ((history.start (fun _ => ⟨0⟩) 2).run
        [.enq ⟨5⟩, .enq ⟨6⟩, .deq, .enq ⟨7⟩, .deq]).enqueued :=
  ⟨by decide, C2_fifo_order (fun _ => ⟨0⟩) 2
    [.enq ⟨5⟩, .enq ⟨6⟩, .deq, .enq ⟨7⟩, .deq] (by decide)⟩

/-- Claim C3 (no loss, no duplication).  For a queue of capacity `C ≥ 1` that
starts empty and any schedule of attempts, the multiset of enqueued requests
is the multiset of dequeued requests plus the multiset of the `count` requests
stored in slots `front, front + 1, ...` modulo `size`; the number of stored
requests is `count`. -/
theorem C3_no_loss_no_duplication (mem : Nat → request_t) (C : Int) (ops : List queue_op)
    (hC : 1 ≤ C) :
    ((((history.start mem C).run ops).enqueued : List request_t) : Multiset request_t) =
      (((history.start mem C).run ops).dequeued : Multiset request_t) +
        ((stored ((history.start mem C).run ops).q : List request_t) : Multiset request_t) ∧
    ((stored ((history.start mem C).run ops).q).length : Int) =
      ((history.start mem C).run ops).q.count := by
  have hi := @run_inv ops (history.start mem C) (start_inv mem C hC)
  have h := @run_split ops (history.start mem C) (start_inv mem C hC)
    (start_split mem C)
  constructor
  · rw [h, Multiset.coe_add]
  · have := hi.1.count_lo
    simp only [stored, List.length_map, List.length_range]
    omega

theorem C3_no_loss_no_duplication_witness :
    (1 : Int) ≤ 2 ∧
    (((((history.start (fun _ => ⟨0⟩) 2).run
        [.enq ⟨5⟩, .enq ⟨5⟩, .deq, .enq ⟨7⟩]).enqueued : List request_t) : Multiset request_t) =
      (((history.start (fun _ => ⟨0⟩) 2).run
        [.enq ⟨5⟩, .enq ⟨5⟩, .deq, .enq ⟨7⟩]).dequeued : Multiset request_t) +
        ((stored ((history.start (fun _ => ⟨0⟩) 2).run
          [.enq ⟨5⟩, .enq ⟨5⟩, .deq, .enq ⟨7⟩]).q : List request_t) : Multiset request_t) ∧
    ((stored ((history.start (fun _ => ⟨0⟩) 2).run
        [.enq ⟨5⟩, .enq ⟨5⟩, .deq, .enq ⟨7⟩]).q).length : Int) =
      ((history.start (fun _ => ⟨0⟩) 2).run
        [.enq ⟨5⟩, .enq ⟨5⟩, .deq, .enq ⟨7⟩]).q.count) :=
  ⟨by decide, C3_no_loss_no_duplication (fun _ => ⟨0⟩) 2
    [.enq ⟨5⟩, .enq ⟨5⟩, .deq, .enq ⟨7⟩] (by decide)⟩

/-- Claim C4 (backpressure).  In every state `h` reached from the empty queue of
capacity `C ≥ 1`: when `count = C`, an enqueue attempt waits (`enqueue` yields
no new state and the step leaves the whole history as it is), a dequeue
completes and brings `count` below `C`, and the enqueue then completes; when
`count < C`, the enqueue completes at once and raises `count` by one.  With
`C = 2` from the empty queue: enqueues of `a` and `b` complete, the enqueue of a
third request `c` waits, a dequeue returns `a`, and the enqueue of `c` then
completes. -/
theorem C4_backpressure (mem : Nat → request_t) (C : Int) (ops : List queue_op)
    (r : request_t) (hC : 1 ≤ C) :
    (((history.start mem C).run ops).q.count = C →
      enqueue ((history.start mem C).run ops).q r = none ∧
      ((history.start mem C).run ops).step (.enq r) = (history.start mem C).run ops ∧
      ∃ q1 x q2, dequeue ((history.start mem C).run ops).q = some (q1, x) ∧
        q1.count < C ∧ enqueue q1 r = some q2 ∧ q2.count = C) ∧
    (((history.start mem C).run ops).q.count < C →
      ∃ q1, enqueue ((history.start mem C).run ops).q r = some q1 ∧
        q1.count = ((history.start mem C).run ops).q.count + 1) ∧
    (∀ a b c : request_t,
      ∃ q1 q2 q3 q4, enqueue (init_queue mem 2) a = some q1 ∧ enqueue q1 b = some q2 ∧
        enqueue q2 c = none ∧ dequeue q2 = some (q3, a) ∧ enqueue q3 c = some q4 ∧
        stored q4 = [b, c]) := by
  have hi := @run_inv ops (history.start mem C) (start_inv mem C hC)
  have hs : ((history.start mem C).run ops).q.size = C := hi.2
  refine ⟨?_, ?_, ?_⟩
  · intro hfull
    have he : enqueue ((history.start mem C).run ops).q r = none := by
      simp [enqueue, hfull, hs]
    refine ⟨he, ?_, ?_⟩
    · simp only [history.step, he]
    · have hne : ((history.start mem C).run ops).q.count ≠ 0 := by omega
      refine ⟨_, _, _, dequeue_of_ne _ hne, ?_, enqueue_of_ne _ _ ?_, ?_⟩ <;>
        simp only <;> omega
  · intro hlt
    have hne : ((history.start mem C).run ops).q.count ≠
        ((history.start mem C).run ops).q.size := by omega
    exact ⟨_, enqueue_of_ne _ _ hne, rfl⟩
  · intro a b c
    have t1 : Int.tmod 1 2 = 1 := by decide
    have t2 : Int.tmod 2 2 = 0 := by decide
    have e1 : ((1 : Int) + 0) % 2 = 1 := by decide
    have e2 : ((1 : Int) + 1) % 2 = 0 := by decide
    refine ⟨⟨[a, mem 1], 0, 1, 1, 2⟩, ⟨[a, b], 0, 0, 2, 2⟩, ⟨[a, b], 1, 0, 1, 2⟩,
      ⟨[c, b], 1, 1, 2, 2⟩, ?_, ?_, ?_, ?_, ?_, ?_⟩
    · simp [enqueue, init_queue, List.range_succ, t1]
    · simp [enqueue, t2]
    · simp [enqueue]
    · simp [dequeue, t1]
    · simp [enqueue, t1]
    · simp [stored, List.range_succ, e1, e2]

theorem C4_backpressure_witness :
    (1 : Int) ≤ 2 ∧
    ((((history.start (fun _ => ⟨0⟩) 2).run [.enq ⟨5⟩, .enq ⟨6⟩]).q.count = 2 →
      enqueue ((history.start (fun _ => ⟨0⟩) 2).run [.enq ⟨5⟩, .enq ⟨6⟩]).q ⟨7⟩ = none ∧
      ((history.start (fun _ => ⟨0⟩) 2).run [.enq ⟨5⟩, .enq ⟨6⟩]).step (.enq ⟨7⟩) =
        (history.start (fun _ => ⟨0⟩) 2).run [.enq ⟨5⟩, .enq ⟨6⟩] ∧
      ∃ q1 x q2, dequeue ((history.start (fun _ => ⟨0⟩) 2).run [.enq ⟨5⟩, .enq ⟨6⟩]).q =
          some (q1, x) ∧
        q1.count < 2 ∧ enqueue q1 ⟨7⟩ = some q2 ∧ q2.count = 2) ∧
    (((history.start (fun _ => ⟨0⟩) 2).run [.enq ⟨5⟩, .enq ⟨6⟩]).q.count < 2 →
      ∃ q1, enqueue ((history.start (fun _ => ⟨0⟩) 2).run [.enq ⟨5⟩, .enq ⟨6⟩]).q ⟨7⟩ =
          some q1 ∧
        q1.count = ((history.start (fun _ => ⟨0⟩) 2).run [.enq ⟨5⟩, .enq ⟨6⟩]).q.count + 1) ∧
    (∀ a b c : request_t,
      ∃ q1 q2 q3 q4, enqueue (init_queue (fun _ => ⟨0⟩) 2) a = some q1 ∧
        enqueue q1 b = some q2 ∧
        enqueue q2 c = none ∧ dequeue q2 = some (q3, a) ∧ enqueue q3 c = some q4 ∧
        stored q4 = [b, c])) ∧
    ((history.start (fun _ => ⟨0⟩) 2).run [.enq ⟨5⟩, .enq ⟨6⟩]).q.count = 2 :=
  ⟨by decide, C4_backpressure (fun _ => ⟨0⟩) 2 [.enq ⟨5⟩, .enq ⟨6⟩] ⟨7⟩ (by decide),
    by decide⟩


/-! ## String comparison -/

theorem strncmp_zero_iff_prefix (lit : List Char) (hl : NUL ∉ lit) :
    ∀ s : List Char, strncmp_zero s lit lit.length = true ↔ lit <+: s := by
  induction lit with
  | nil => intro s; simp [strncmp_zero]
  | cons b t ih =>
    intro s
    have hb : b ≠ NUL := fun h => hl (h ▸ List.mem_cons_self _ _)
    have ht : NUL ∉ t := fun h => hl (List.mem_cons_of_mem _ h)
    cases s with
    | nil =>
      simp [strncmp_zero, Ne.symm hb]
    | cons a s1 =>
      simp only [List.length_cons, strncmp_zero, List.headD_cons, List.tail_cons,
        List.cons_prefix_cons]
      by_cases hab : a = b
      · subst hab
        simp [hb, ih ht s1]
      · have hba : ¬ b = a := fun h => hab h.symm
        simp [hab, hba]

theorem prefix_set_NUL (lit : List Char) (hl : NUL ∉ lit) :
    ∀ (buf : List Char) (n : Nat), lit <+: buf.set n NUL ↔ lit <+: buf.take n := by
  induction lit with
  | nil => intro buf n; simp
  | cons b t ih =>
    intro buf n
    have hb : b ≠ NUL := fun h => hl (h ▸ List.mem_cons_self _ _)
    have ht : NUL ∉ t := fun h => hl (List.mem_cons_of_mem _ h)
    cases buf with
    | nil => simp
    | cons a buf1 =>
      cases n with
      | zero => simp [List.cons_prefix_cons, hb]
      | succ m => simp [List.cons_prefix_cons, ih ht buf1 m]

theorem starts_with_iff (pfx : String) (line : List Char) :
    starts_with pfx line = true ↔ pfx.toList <+: line := by
  simp [starts_with, List.isPrefixOf_iff_prefix]


/-! ## The connection handler -/

theorem NUL_not_mem_CONNECT : NUL ∉ "CONNECT".toList := by decide

theorem handle_client_of_nonneg (client_socket : Int) (n : Nat) (buffer : List Char)
    (sent : send_result) :
    handle_client client_socket (n : Int) buffer sent =
      [.recv client_socket 1023, .printf (c_str (buffer.set n NUL)),
       .send client_socket
         (if starts_with "CONNECT" (buffer.take n) then response_504 else response_200)] ++
        after_send client_socket sent := by
  have hneg : ¬ ((n : Int) < 0) := by omega
  have key : strncmp_zero (buffer.set n NUL) "CONNECT".toList 7 =
      starts_with "CONNECT" (buffer.take n) := by
    rw [Bool.eq_iff_iff, starts_with_iff, ← prefix_set_NUL _ NUL_not_mem_CONNECT]
    exact strncmp_zero_iff_prefix "CONNECT".toList NUL_not_mem_CONNECT _
  simp only [handle_client, if_neg hneg, Int.toNat_ofNat, key, BUFFER_SIZE]
  split <;> rfl

/-- Claim C10, evaluated on the code.  For every non-negative `recv` result `n` the
handler sends the 504 text when the first 7 received bytes are `CONNECT` and
the 200 text otherwise, however the `send` call ends.  The 200 text declares
`Content-Length: 13` and its body `Hello, world!` has 13 bytes; the 504 text
declares `Content-Length: 19` while its body `Gateway Timeout` has 15 bytes. -/
theorem C10_content_length_504_mismatch :
    (∀ (client_socket : Int) (n : Nat) (buffer : List Char) (sent : send_result),
      handle_client client_socket (n : Int) buffer sent =
        [.recv client_socket 1023, .printf (c_str (buffer.set n NUL)),
         .send client_socket
           (if starts_with "CONNECT" (buffer.take n) then response_504 else response_200)] ++
          after_send client_socket sent) ∧
    (∀ (client_socket : Int) (n : Nat) (buffer : List Char) (r : Int),
      handle_client client_socket (n : Int) buffer (.returned r) =
        [.recv client_socket 1023, .printf (c_str (buffer.set n NUL)),
         .send client_socket
           (if starts_with "CONNECT" (buffer.take n) then response_504 else response_200),
         .close client_socket]) ∧
    declared_length response_200 = some 13 ∧
    body response_200 = some "Hello, world!".toList ∧
    "Hello, world!".toList.length = 13 ∧
    declared_length response_504 = some 19 ∧
    body response_504 = some "Gateway Timeout".toList ∧
    "Gateway Timeout".toList.length = 15 := by
  refine ⟨handle_client_of_nonneg, ?_, ?_, ?_, ?_, ?_, ?_, ?_⟩
  · intro client_socket n buffer r
    rw [handle_client_of_nonneg]
    rfl
  all_goals decide

/-! ## Workers and shutdown -/

theorem dequeue_of_empty (q : request_queue_t) (h : q.count = 0) : dequeue q = none := by
  simp [dequeue, h]

theorem worker_step_empty (t : Int) (q : request_queue_t) (h : q.count = 0)
    (pc : worker_pc) :
    (worker_step t q pc).1 = q ∧
      (pc = .in_dequeue → (worker_step t q pc).2.1 = .in_dequeue) := by
  cases pc with
  | loop_top => simp only [worker_step]; split <;> simp
  | in_dequeue => simp [worker_step, dequeue_of_empty q h]
  | returned => simp [worker_step]

theorem pool_step_empty (t : Int) (p : thread_pool_t) (j i : Nat)
    (hq : p.queue.count = 0) (hw : p.threads[i]? = some .in_dequeue) :
    (pool_step t p j).queue.count = 0 ∧
      (pool_step t p j).threads[i]? = some .in_dequeue := by
  unfold pool_step
  cases hj : p.threads[j]? with
  | none => exact ⟨hq, hw⟩
  | some pc =>
    have hs := worker_step_empty t p.queue hq pc
    refine ⟨?_, ?_⟩
    · simp only [hs.1, hq]
    · simp only [List.getElem?_set]
      by_cases hji : j = i
      · subst hji
        have hpc : pc = .in_dequeue := by
          rw [hj] at hw
          exact Option.some.inj hw
        have hlt : j < p.threads.length := by
          by_contra hge
          rw [List.getElem?_eq_none (by omega)] at hj
          exact Option.noConfusion hj
        simp [hlt, hs.2 hpc]
      · simp [hji, hw]

theorem pool_run_empty (t : Int) (schedule : List Nat) (i : Nat) :
    ∀ p : thread_pool_t, p.queue.count = 0 → p.threads[i]? = some .in_dequeue →
      (pool_run t p schedule).queue.count = 0 ∧
        (pool_run t p schedule).threads[i]? = some .in_dequeue := by
  induction schedule with
  | nil => intro p hq hw; exact ⟨hq, hw⟩
  | cons j rest ih =>
    intro p hq hw
    have hs := pool_step_empty t p j i hq hw
    have := ih (pool_step t p j) hs.1 hs.2
    simpa only [pool_run, List.foldl_cons] using this

/-- Claim C5, evaluated on the code.  Take a pool whose queue is empty
(`count = 0`) and whose thread `i` waits inside `dequeue`.  Whatever the value of
`terminate_server`, a wake-up of that thread re-evaluates `count == 0` and
leaves it waiting with no request handled; under every schedule of the
workers run by `destroy_pool` (flag set to 1) the thread is still inside
`dequeue`, so the joins of `destroy_pool` are never through. -/
theorem C5_waiting_worker_stays_blocked (s : server) (i : Nat) (schedule : List Nat)
    (hq : s.pool.queue.count = 0) (hw : s.pool.threads[i]? = some .in_dequeue) :
    (∀ t : Int, worker_step t s.pool.queue .in_dequeue =
        (s.pool.queue, .in_dequeue, none)) ∧
    (pool_run 1 s.pool schedule).threads[i]? = some .in_dequeue ∧
    destroy_pool schedule s = none := by
  have hr := pool_run_empty 1 schedule i s.pool hq hw
  refine ⟨?_, hr.2, ?_⟩
  · intro t
    simp [worker_step, dequeue_of_empty _ hq]
  · unfold destroy_pool
    have hmem : worker_pc.in_dequeue ∈ (pool_run 1 s.pool schedule).threads :=
      List.getElem?_mem hr.2
    have : ¬ ((pool_run 1 s.pool schedule).threads.all (fun pc => pc = .returned)) = true := by
      intro hall
      rw [List.all_eq_true] at hall
      have := hall _ hmem
      simp at this
    simp only [this]
    rfl

theorem C5_waiting_worker_stays_blocked_witness :
    (∀ t : Int, worker_step t (init_queue (fun _ => ⟨0⟩) 2) .in_dequeue =
        (init_queue (fun _ => ⟨0⟩) 2, .in_dequeue, none)) ∧
    (pool_run 1 ⟨[.in_dequeue], init_queue (fun _ => ⟨0⟩) 2, 1⟩ [0, 0, 0]).threads[0]? =
      some .in_dequeue ∧
    destroy_pool [0, 0, 0]
      ⟨⟨8080, 1, 2⟩, 0, 0, ⟨[.in_dequeue], init_queue (fun _ => ⟨0⟩) 2, 1⟩⟩ = none :=
  C5_waiting_worker_stays_blocked
    ⟨⟨8080, 1, 2⟩, 0, 0, ⟨[.in_dequeue], init_queue (fun _ => ⟨0⟩) 2, 1⟩⟩ 0 [0, 0, 0]
    (by decide) (by decide)


/-! ## Reload -/

theorem destroy_pool_sets_flag {schedule : List Nat} {s s1 : server}
    (h : destroy_pool schedule s = some s1) :
    s1.terminate_server = 1 ∧ s1.cfg = s.cfg := by
  unfold destroy_pool at h
  simp only at h
  split at h
  · simp only [Option.some.injEq] at h
    subst h
    exact ⟨rfl, rfl⟩
  · exact Option.noConfusion h

/-- Claim C6, evaluated on the code.  Whenever the reload branch of the accept
loop runs to its end (the configuration is read, the joins of `destroy_pool`
are through, `init_pool` has run), the resulting state has
`terminate_server = 1`: the condition of the accept loop is false, and each of
the `THREAD_POOL_SIZE` new workers, all at their loop top, returns on its
first move without calling `dequeue` and without handling a request. -/
theorem C6_reload_leaves_terminate_set (atoi : List Char → Int) (mem : Nat → request_t)
    (file : Option (List Char)) (schedule : List Nat) (s s1 : server)
    (h : reload_branch atoi mem file schedule s = .ok s1) :
    s1.terminate_server = 1 ∧
    accept_loop_cond s1 = false ∧
    s1.pool.threads = List.replicate s1.cfg.THREAD_POOL_SIZE.toNat .loop_top ∧
    ∀ q : request_queue_t,
      worker_step s1.terminate_server q .loop_top = (q, .returned, none) := by
  unfold reload_branch at h
  split at h
  · exact outcome.noConfusion h
  · next cfg hcfg =>
    split at h
    · exact outcome.noConfusion h
    · next s2 hd =>
      have hf := destroy_pool_sets_flag hd
      simp only [outcome.ok.injEq] at h
      subst h
      have ht : s2.terminate_server = 1 := hf.1
      refine ⟨ht, ?_, rfl, ?_⟩
      · simp [accept_loop_cond, ht]
      · intro q
        simp [worker_step, ht]

theorem C6_reload_leaves_terminate_set_witness :
    reload_branch atoi_digits (fun _ => ⟨0⟩) (some "THREAD_POOL_SIZE=2\n".toList) [0]
        ⟨⟨8080, 1, 2⟩, 1, 0, ⟨[.loop_top], init_queue (fun _ => ⟨0⟩) 2, 1⟩⟩ =
      .ok ⟨⟨8080, 2, 2⟩, 0, 1, ⟨[.loop_top, .loop_top], init_queue (fun _ => ⟨0⟩) 2, 2⟩⟩ ∧
    ((⟨⟨8080, 2, 2⟩, 0, 1,
        ⟨[.loop_top, .loop_top], init_queue (fun _ => ⟨0⟩) 2, 2⟩⟩ : server).terminate_server = 1 ∧
    accept_loop_cond
      ⟨⟨8080, 2, 2⟩, 0, 1, ⟨[.loop_top, .loop_top], init_queue (fun _ => ⟨0⟩) 2, 2⟩⟩ = false ∧
    (⟨⟨8080, 2, 2⟩, 0, 1,
        ⟨[.loop_top, .loop_top], init_queue (fun _ => ⟨0⟩) 2, 2⟩⟩ : server).pool.threads =
      List.replicate (⟨⟨8080, 2, 2⟩, 0, 1,
        ⟨[.loop_top, .loop_top], init_queue (fun _ => ⟨0⟩) 2, 2⟩⟩ :
          server).cfg.THREAD_POOL_SIZE.toNat .loop_top ∧
    ∀ q : request_queue_t,
      worker_step (⟨⟨8080, 2, 2⟩, 0, 1,
        ⟨[.loop_top, .loop_top], init_queue (fun _ => ⟨0⟩) 2, 2⟩⟩ : server).terminate_server
        q .loop_top = (q, .returned, none)) :=
  ⟨by decide, C6_reload_leaves_terminate_set atoi_digits (fun _ => ⟨0⟩)
    (some "THREAD_POOL_SIZE=2\n".toList) [0]
    ⟨⟨8080, 1, 2⟩, 1, 0, ⟨[.loop_top], init_queue (fun _ => ⟨0⟩) 2, 1⟩⟩ _ (by decide)⟩

/-! ## Reload with an unreadable configuration -/

/-- Claim C7 as stated fails: in an active state with the reload flag set, when
the configuration file cannot be opened the reload branch ends in
`exit(EXIT_FAILURE)`; it does not hand back the unchanged state. -/
theorem C7_reload_failure_exits_counterexample :
    reload_branch atoi_digits (fun _ => ⟨0⟩) none [0]
        ⟨⟨8080, 1, 2⟩, 1, 0, ⟨[.loop_top], init_queue (fun _ => ⟨0⟩) 2, 1⟩⟩ = .exit 1 ∧
    reload_branch atoi_digits (fun _ => ⟨0⟩) none [0]
        ⟨⟨8080, 1, 2⟩, 1, 0, ⟨[.loop_top], init_queue (fun _ => ⟨0⟩) 2, 1⟩⟩ ≠
      .ok ⟨⟨8080, 1, 2⟩, 1, 0, ⟨[.loop_top], init_queue (fun _ => ⟨0⟩) 2, 1⟩⟩ ∧
    reload_branch atoi_digits (fun _ => ⟨0⟩) none [0]
        ⟨⟨8080, 1, 2⟩, 1, 0, ⟨[.loop_top], init_queue (fun _ => ⟨0⟩) 2, 1⟩⟩ ≠
      .ok ⟨⟨8080, 1, 2⟩, 0, 0, ⟨[.loop_top], init_queue (fun _ => ⟨0⟩) 2, 1⟩⟩ := by
  decide

/-- Claim C7, amended.  When the configuration file cannot be opened,
`load_config` ends the process with `exit(EXIT_FAILURE)`, in the reload branch
of the accept loop exactly as at startup: from every server state the reload
branch exits with that status, and so does the start of `main`. -/
theorem C7_unreadable_config_is_fatal (atoi : List Char → Int) (mem : Nat → request_t)
    (schedule : List Nat) (s : server) :
    reload_branch atoi mem none schedule s = .exit EXIT_FAILURE ∧
    startup atoi mem none = .exit EXIT_FAILURE ∧
    load_config atoi none s.cfg = .error EXIT_FAILURE := by
  refine ⟨rfl, rfl, rfl⟩


/-! ## The configuration loader -/

theorem strncmp_PORT (line : List Char) :
    strncmp_zero line "PORT=".toList 5 = starts_with "PORT=" line := by
  rw [Bool.eq_iff_iff, starts_with_iff]
  exact strncmp_zero_iff_prefix "PORT=".toList (by decide) line

theorem strncmp_THREAD_POOL_SIZE (line : List Char) :
    strncmp_zero line "THREAD_POOL_SIZE=".toList 17 = starts_with "THREAD_POOL_SIZE=" line := by
  rw [Bool.eq_iff_iff, starts_with_iff]
  exact strncmp_zero_iff_prefix "THREAD_POOL_SIZE=".toList (by decide) line

theorem strncmp_QUEUE_SIZE (line : List Char) :
    strncmp_zero line "QUEUE_SIZE=".toList 11 = starts_with "QUEUE_SIZE=" line := by
  rw [Bool.eq_iff_iff, starts_with_iff]
  exact strncmp_zero_iff_prefix "QUEUE_SIZE=".toList (by decide) line

theorem config_line_eq (atoi : List Char → Int) (line : List Char) (cfg : config) :
    config_line atoi line cfg =
      if starts_with "PORT=" line then
        { cfg with PORT := atoi (c_str (line.drop 5)) }
      else if starts_with "THREAD_POOL_SIZE=" line then
        { cfg with THREAD_POOL_SIZE := atoi (c_str (line.drop 17)) }
      else if starts_with "QUEUE_SIZE=" line then
        { cfg with QUEUE_SIZE := atoi (c_str (line.drop 11)) }
      else cfg := by
  simp only [config_line, strncmp_PORT, strncmp_THREAD_POOL_SIZE, strncmp_QUEUE_SIZE]

/-- A line starts with at most one of the three key prefixes: their first
bytes differ. -/
theorem starts_with_exclusive (line : List Char) :
    (starts_with "PORT=" line = true → starts_with "THREAD_POOL_SIZE=" line = false ∧
      starts_with "QUEUE_SIZE=" line = false) ∧
    (starts_with "THREAD_POOL_SIZE=" line = true → starts_with "QUEUE_SIZE=" line = false) := by
  cases line with
  | nil => decide
  | cons c rest =>
    have hP : starts_with "PORT=" (c :: rest) = true → c = 'P' := by
      rw [starts_with_iff]
      intro h
      exact (List.cons_prefix_cons.mp h).1.symm
    have hT : starts_with "THREAD_POOL_SIZE=" (c :: rest) = true → c = 'T' := by
      rw [starts_with_iff]
      intro h
      exact (List.cons_prefix_cons.mp h).1.symm
    have hQ : starts_with "QUEUE_SIZE=" (c :: rest) = true → c = 'Q' := by
      rw [starts_with_iff]
      intro h
      exact (List.cons_prefix_cons.mp h).1.symm
    refine ⟨fun h => ⟨?_, ?_⟩, fun h => ?_⟩
    · cases h2 : starts_with "THREAD_POOL_SIZE=" (c :: rest) with
      | false => rfl
      | true => exact absurd ((hP h).symm.trans (hT h2)) (by decide)
    · cases h2 : starts_with "QUEUE_SIZE=" (c :: rest) with
      | false => rfl
      | true => exact absurd ((hP h).symm.trans (hQ h2)) (by decide)
    · cases h2 : starts_with "QUEUE_SIZE=" (c :: rest) with
      | false => rfl
      | true => exact absurd ((hT h).symm.trans (hQ h2)) (by decide)

theorem config_line_fields (atoi : List Char → Int) (line : List Char) (cfg : config) :
    config_line atoi line cfg =
      ⟨if starts_with "PORT=" line then atoi (c_str (line.drop 5)) else cfg.PORT,
       if starts_with "THREAD_POOL_SIZE=" line then atoi (c_str (line.drop 17))
         else cfg.THREAD_POOL_SIZE,
       if starts_with "QUEUE_SIZE=" line then atoi (c_str (line.drop 11))
         else cfg.QUEUE_SIZE⟩ := by
  rw [config_line_eq]
  have hx := starts_with_exclusive line
  cases hP : starts_with "PORT=" line with
  | true => simp [(hx.1 hP).1, (hx.1 hP).2]
  | false =>
    cases hT : starts_with "THREAD_POOL_SIZE=" line with
    | true => simp [hx.2 hT]
    | false =>
      cases hQ : starts_with "QUEUE_SIZE=" line with
      | true => simp
      | false => simp

theorem last_setting_nil (atoi : List Char → Int) (pfx : String) (old : Int) :
    last_setting atoi pfx [] old = old := rfl

theorem last_setting_cons (atoi : List Char → Int) (pfx : String) (line : List Char)
    (lines : List (List Char)) (old : Int) :
    last_setting atoi pfx (line :: lines) old =
      last_setting atoi pfx lines
        (if starts_with pfx line then atoi (c_str (line.drop pfx.length)) else old) := by
  unfold last_setting
  rw [List.filter_cons]
  cases h : starts_with pfx line with
  | false => simp
  | true =>
    simp only [if_true, List.getLast?_cons]
    cases List.getLast? (List.filter (starts_with pfx) lines) <;> rfl

theorem foldl_config_line (atoi : List Char → Int) (lines : List (List Char)) :
    ∀ cfg : config,
      lines.foldl (fun c l => config_line atoi l c) cfg =
        ⟨last_setting atoi "PORT=" lines cfg.PORT,
         last_setting atoi "THREAD_POOL_SIZE=" lines cfg.THREAD_POOL_SIZE,
         last_setting atoi "QUEUE_SIZE=" lines cfg.QUEUE_SIZE⟩ := by
  induction lines with
  | nil => intro cfg; rfl
  | cons l ls ih =>
    intro cfg
    rw [List.foldl_cons, ih, config_line_fields]
    simp only [last_setting_cons]
    rfl

theorem fgets_chars_line (b rest : List Char) :
    ∀ room : Nat, '\n' ∉ b → b.length < room →
      fgets_chars room (b ++ '\n' :: rest) = (b ++ ['\n'], rest) := by
  induction b with
  | nil =>
    intro room _ hl
    obtain ⟨r, rfl⟩ : ∃ r, room = r + 1 := ⟨room - 1, by simp at hl; omega⟩
    simp [fgets_chars]
  | cons c b ih =>
    intro room hn hl
    obtain ⟨r, rfl⟩ : ∃ r, room = r + 1 := ⟨room - 1, by simp at hl; omega⟩
    have hc : c ≠ '\n' := fun h => hn (h ▸ List.mem_cons_self _ _)
    have hb : '\n' ∉ b := fun h => hn (List.mem_cons_of_mem _ h)
    have := ih r hb (by simp at hl; omega)
    simp [fgets_chars, hc, this]

theorem fgets_chars_tail (t : List Char) :
    ∀ room : Nat, '\n' ∉ t → t.length ≤ room → fgets_chars room t = (t, []) := by
  induction t with
  | nil => intro room _ _; cases room <;> rfl
  | cons c t ih =>
    intro room hn hl
    obtain ⟨r, rfl⟩ : ∃ r, room = r + 1 := ⟨room - 1, by simp at hl; omega⟩
    have hc : c ≠ '\n' := fun h => hn (h ▸ List.mem_cons_self _ _)
    have ht : '\n' ∉ t := fun h => hn (List.mem_cons_of_mem _ h)
    have := ih r ht (by simp at hl; omega)
    simp [fgets_chars, hc, this]

theorem fgets_chars_length (s : List Char) :
    ∀ room : Nat, (fgets_chars room s).1.length + (fgets_chars room s).2.length = s.length := by
  induction s with
  | nil => intro room; cases room <;> rfl
  | cons c s ih =>
    intro room
    cases room with
    | zero => simp [fgets_chars]
    | succ r =>
      by_cases hc : c = '\n'
      · simp [fgets_chars, hc]
        omega
      · have := ih r
        simp only [fgets_chars, if_neg hc, List.length_cons]
        omega

theorem fgets_rest_shorter {size : Nat} {stream line rest : List Char} (hs : 2 ≤ size)
    (h : fgets size stream = some (line, rest)) : rest.length < stream.length := by
  unfold fgets at h
  split at h
  · exact Option.noConfusion h
  · next hne =>
    simp only [Option.some.injEq] at h
    have hlen := fgets_chars_length stream (size - 1)
    rw [h] at hlen
    simp only at hlen
    have hpos : 0 < line.length := by
      obtain ⟨r, hr⟩ : ∃ r, size - 1 = r + 1 := ⟨size - 2, by omega⟩
      cases stream with
      | nil => exact absurd rfl hne
      | cons c t =>
        rw [hr] at h
        by_cases hc : c = '\n'
        · simp only [fgets_chars, if_pos hc, Prod.mk.injEq] at h
          rw [← h.1]
          simp
        · simp only [fgets_chars, if_neg hc, Prod.mk.injEq] at h
          rw [← h.1]
          simp
    omega

/-- The loop of `load_config` reaches the end of the file: any two amounts of
fuel above the length of the stream give the same settings. -/
theorem read_config_fuel (atoi : List Char → Int) :
    ∀ (fuel1 fuel2 : Nat) (stream : List Char) (cfg : config),
      stream.length < fuel1 → stream.length < fuel2 →
      read_config atoi fuel1 stream cfg = read_config atoi fuel2 stream cfg := by
  intro fuel1
  induction fuel1 with
  | zero => intro fuel2 stream cfg h1 _; omega
  | succ f1 ih =>
    intro fuel2 stream cfg h1 h2
    obtain ⟨f2, rfl⟩ : ∃ f2, fuel2 = f2 + 1 := ⟨fuel2 - 1, by omega⟩
    simp only [read_config]
    cases hg : fgets 256 stream with
    | none => rfl
    | some p =>
      obtain ⟨line, rest⟩ := p
      have := fgets_rest_shorter (by omega) hg
      exact ih f2 rest _ (by omega) (by omega)

theorem file_text_cons (b : List Char) (bodies : List (List Char)) (tail : List Char) :
    file_text (b :: bodies) tail = b ++ '\n' :: file_text bodies tail := by
  simp [file_text]

theorem file_lines_cons (b : List Char) (bodies : List (List Char)) (tail : List Char) :
    file_lines (b :: bodies) tail = (b ++ ['\n']) :: file_lines bodies tail := by
  simp [file_lines]

theorem read_config_lines (atoi : List Char → Int) (tail : List Char)
    (ht : '\n' ∉ tail) (hl : tail.length ≤ 255) (bodies : List (List Char)) :
    ∀ (cfg : config) (fuel : Nat),
      (∀ b ∈ bodies, '\n' ∉ b ∧ b.length ≤ 254) →
      (file_lines bodies tail).length + 1 ≤ fuel →
      read_config atoi fuel (file_text bodies tail) cfg =
        (file_lines bodies tail).foldl (fun c l => config_line atoi l c) cfg := by
  induction bodies with
  | nil =>
    intro cfg fuel _ hf
    by_cases hnil : tail = []
    · subst hnil
      obtain ⟨f, rfl⟩ : ∃ f, fuel = f + 1 := ⟨fuel - 1, by omega⟩
      simp [read_config, fgets, file_text, file_lines]
    · have hf2 : 2 ≤ fuel := by simpa [file_lines, hnil] using hf
      obtain ⟨f, rfl⟩ : ∃ f, fuel = f + 2 := ⟨fuel - 2, by omega⟩
      have := fgets_chars_tail tail 255 ht hl
      simp [read_config, fgets, file_text, file_lines, hnil, this]
  | cons b bs ih =>
    intro cfg fuel hb hf
    rw [file_lines_cons, List.length_cons] at hf
    obtain ⟨f, rfl⟩ : ∃ f, fuel = f + 1 := ⟨fuel - 1, by omega⟩
    have hb1 := hb b (List.mem_cons_self _ _)
    have hne : b ++ '\n' :: file_text bs tail ≠ [] := by simp
    have hg := fgets_chars_line b (file_text bs tail) 255 hb1.1 (by omega)
    rw [file_text_cons, file_lines_cons, List.foldl_cons]
    simp only [read_config, fgets, if_neg hne, Nat.add_one_sub_one, hg]
    exact ih _ f (fun b1 h1 => hb b1 (List.mem_cons_of_mem _ h1)) (by omega)

theorem file_lines_length_le (bodies : List (List Char)) (tail : List Char) :
    (file_lines bodies tail).length ≤ (file_text bodies tail).length := by
  induction bodies with
  | nil =>
    by_cases hnil : tail = []
    · simp [file_lines, hnil]
    · have : 0 < tail.length := List.length_pos.mpr hnil
      simp [file_lines, file_text, hnil]
      omega
  | cons b bs ih =>
    rw [file_lines_cons, file_text_cons]
    simp only [List.length_cons, List.length_append]
    omega


/-- Claim C8 as stated fails on a long line.  The file holds one line, 255 bytes
`x` followed by `PORT=99` and a newline.  That line starts with none of the
three prefixes, yet `load_config` changes `PORT` from 8080 to 99: `fgets` with
the 256-byte buffer delivers the first 255 bytes and then `PORT=99` as a
piece of its own. -/
theorem C8_long_line_counterexample :
    file_lines [List.replicate 255 'x' ++ "PORT=99".toList] [] =
      [List.replicate 255 'x' ++ "PORT=99\n".toList] ∧
    recognized (List.replicate 255 'x' ++ "PORT=99\n".toList) = false ∧
    load_config atoi_digits
        (some (file_text [List.replicate 255 'x' ++ "PORT=99".toList] [])) ⟨8080, 4, 10⟩ =
      .ok ⟨99, 4, 10⟩ ∧
    load_config atoi_digits
        (some (file_text [List.replicate 255 'x' ++ "PORT=99".toList] [])) ⟨8080, 4, 10⟩ ≠
      .ok ⟨8080, 4, 10⟩ := by
  have h : load_config atoi_digits
      (some (file_text [List.replicate 255 'x' ++ "PORT=99".toList] [])) ⟨8080, 4, 10⟩ =
      .ok ⟨99, 4, 10⟩ := by
    simp only [load_config, Except.ok.injEq]
    decide
  refine ⟨by decide, by decide, h, ?_⟩
  rw [h]
  simp

/-- Claim C8, amended to lines that fit the 256-byte buffer.  For every line
handed to the loop body: a line that starts with `PORT=` sets `PORT` to `atoi`
of the text after the prefix and leaves the other two settings, likewise for
`THREAD_POOL_SIZE=` and `QUEUE_SIZE=`, and a line with none of the prefixes
leaves all three.  For every file whose lines have at most 255 bytes, newline
included, the loop body receives exactly the lines of the file, and each
setting ends as `atoi` of the text after the prefix on the last line that
starts with its key, or keeps its old value when no line does. -/
theorem C8_config_lines (atoi : List Char → Int) (cfg : config) (line : List Char)
    (bodies : List (List Char)) (tail : List Char)
    (hb : ∀ b ∈ bodies, '\n' ∉ b ∧ b.length ≤ 254)
    (ht : '\n' ∉ tail) (hl : tail.length ≤ 255) :
    (starts_with "PORT=" line = true →
      config_line atoi line cfg = { cfg with PORT := atoi (c_str (line.drop 5)) }) ∧
    (starts_with "THREAD_POOL_SIZE=" line = true →
      config_line atoi line cfg =
        { cfg with THREAD_POOL_SIZE := atoi (c_str (line.drop 17)) }) ∧
    (starts_with "QUEUE_SIZE=" line = true →
      config_line atoi line cfg = { cfg with QUEUE_SIZE := atoi (c_str (line.drop 11)) }) ∧
    (recognized line = false → config_line atoi line cfg = cfg) ∧
    load_config atoi (some (file_text bodies tail)) cfg =
      .ok ((file_lines bodies tail).foldl (fun c l => config_line atoi l c) cfg) ∧
    load_config atoi (some (file_text bodies tail)) cfg =
      .ok ⟨last_setting atoi "PORT=" (file_lines bodies tail) cfg.PORT,
           last_setting atoi "THREAD_POOL_SIZE=" (file_lines bodies tail) cfg.THREAD_POOL_SIZE,
           last_setting atoi "QUEUE_SIZE=" (file_lines bodies tail) cfg.QUEUE_SIZE⟩ := by
  have hx := starts_with_exclusive line
  have hload : load_config atoi (some (file_text bodies tail)) cfg =
      .ok ((file_lines bodies tail).foldl (fun c l => config_line atoi l c) cfg) := by
    simp only [load_config]
    rw [read_config_lines atoi tail ht hl bodies cfg _ hb
      (by have := file_lines_length_le bodies tail; omega)]
  refine ⟨?_, ?_, ?_, ?_, hload, ?_⟩
  · intro h
    rw [config_line_eq, if_pos h]
  · intro h
    have hP : starts_with "PORT=" line = false := by
      cases hP : starts_with "PORT=" line with
      | false => rfl
      | true => rw [(hx.1 hP).1] at h; exact Bool.noConfusion h
    rw [config_line_eq, hP, if_pos h]
    simp
  · intro h
    have hP : starts_with "PORT=" line = false := by
      cases hP : starts_with "PORT=" line with
      | false => rfl
      | true => rw [(hx.1 hP).2] at h; exact Bool.noConfusion h
    have hT : starts_with "THREAD_POOL_SIZE=" line = false := by
      cases hT : starts_with "THREAD_POOL_SIZE=" line with
      | false => rfl
      | true => rw [hx.2 hT] at h; exact Bool.noConfusion h
    rw [config_line_eq, hP, hT, if_pos h]
    simp
  · intro h
    simp only [recognized, Bool.or_eq_false_iff] at h
    rw [config_line_eq, h.1.1, h.1.2, h.2]
    simp
  · rw [hload, foldl_config_line]

theorem C8_config_lines_witness :
    (∀ b ∈ ["# settings".toList, "PORT=8080".toList, "QUEUE_SIZE= 7".toList,
        "PORT=9090".toList], '\n' ∉ b ∧ b.length ≤ 254) ∧
    '\n' ∉ "THREAD_POOL_SIZE=3".toList ∧ "THREAD_POOL_SIZE=3".toList.length ≤ 255 ∧
    load_config atoi_digits
      (some ("# settings\nPORT=8080\nQUEUE_SIZE= 7\nPORT=9090\nTHREAD_POOL_SIZE=3").toList)
      ⟨1, 2, 3⟩ = .ok ⟨9090, 3, 7⟩ ∧
    config_line atoi_digits "PORT=8080\n".toList ⟨1, 2, 3⟩ = ⟨8080, 2, 3⟩ :=
  ⟨by decide, by decide, by decide,
    (C8_config_lines atoi_digits ⟨1, 2, 3⟩ "PORT=8080\n".toList
      ["# settings".toList, "PORT=8080".toList, "QUEUE_SIZE= 7".toList, "PORT=9090".toList]
      "THREAD_POOL_SIZE=3".toList (by decide) (by decide) (by decide)).2.2.2.2.2,
    (C8_config_lines atoi_digits ⟨1, 2, 3⟩ "PORT=8080\n".toList
      ["# settings".toList, "PORT=8080".toList, "QUEUE_SIZE= 7".toList, "PORT=9090".toList]
      "THREAD_POOL_SIZE=3".toList (by decide) (by decide) (by decide)).1 (by decide)⟩

end Server504
